import Mathlib

/- Verification development for the vga_ball userspace animation programs
   (src/submission/hello.c, pixel-space motion, and src/sw/hello.c,
   normalized-space motion).  Float arithmetic of the C sources is modelled
   exactly over ℚ; C integer casts and unsigned-short wraparound are modelled
   on ℤ/ℕ with explicit `% 65536`; an uninitialized C variable is modelled
   as `Option.none`. -/

/-- C cast `(int)x` of a float: truncation toward zero, modelled on ℚ. -/
def truncInt (x : ℚ) : ℤ := if 0 ≤ x then ⌊x⌋ else ⌈x⌉

/-- First while loop of `hsv_to_rgb` (src/submission/hello.c lines 77-78):
`while (h >= 360) h -= 360;`. -/
def subDown (h : ℚ) : ℚ :=
  if hge : 360 ≤ h then subDown (h - 360) else h
termination_by (⌈h / 360⌉).toNat
decreasing_by
  have he : (h - 360) / 360 = h / 360 - 1 := by ring
  have h1 : (0 : ℚ) < h / 360 := div_pos (by linarith) (by norm_num)
  have h2 : 0 < ⌈h / 360⌉ := Int.ceil_pos.mpr h1
  rw [he, show h / 360 - 1 = h / 360 - ((1 : ℤ) : ℚ) by norm_num, Int.ceil_sub_int]
  omega

/-- Second while loop of `hsv_to_rgb` (src/submission/hello.c lines 79-80):
`while (h < 0) h += 360;`. -/
def addUp (h : ℚ) : ℚ :=
  if hlt : h < 0 then addUp (h + 360) else h
termination_by (⌈-h / 360⌉).toNat
decreasing_by
  have he : -(h + 360) / 360 = -h / 360 - 1 := by ring
  have h1 : (0 : ℚ) < -h / 360 := div_pos (by linarith) (by norm_num)
  have h2 : 0 < ⌈-h / 360⌉ := Int.ceil_pos.mpr h1
  rw [he, show -h / 360 - 1 = -h / 360 - ((1 : ℤ) : ℚ) by norm_num, Int.ceil_sub_int]
  omega

/-- Hue normalization performed at the top of `hsv_to_rgb`. -/
def normalizeHue (h : ℚ) : ℚ := addUp (subDown h)

/-- Body of `hsv_to_rgb` after hue normalization
(src/submission/hello.c lines 82-125): sector index `i` is the C truncation
of `h / 60` to `int`, the intermediates `f, p, q, t` follow lines 83-86, the
six-way `switch` on `i` picks `(r1, g1, b1)`, and each channel is scaled by
255 and truncated to `int`. -/
def hsvCore (h s v : ℚ) : ℤ × ℤ × ℤ :=
  let i : ℤ := truncInt (h / 60)
  let f : ℚ := h / 60 - (i : ℚ)
  let p : ℚ := v * (1 - s)
  let q : ℚ := v * (1 - s * f)
  let t : ℚ := v * (1 - s * (1 - f))
  let rgb1 : ℚ × ℚ × ℚ :=
    if i = 0 then (v, t, p)
    else if i = 1 then (q, v, p)
    else if i = 2 then (p, v, t)
    else if i = 3 then (p, q, v)
    else if i = 4 then (t, p, v)
    else (v, p, q)
  (truncInt (rgb1.1 * 255), truncInt (rgb1.2.1 * 255), truncInt (rgb1.2.2 * 255))

/-- `hsv_to_rgb` (src/submission/hello.c lines 75-126, identical in
src/sw/hello.c): normalize the hue into [0,360) by the two while loops, then
run the sector computation. -/
def hsv_to_rgb (h s v : ℚ) : ℤ × ℤ × ℤ := hsvCore (normalizeHue h) s v

/-- Sector selected by the conversion: the C truncation of the normalized
hue divided by 60, i.e. the value `switch`ed on at line 89. -/
def hsvSector (h : ℚ) : ℤ := truncInt (normalizeHue h / 60)

/-- Predicate "exactly one of the three channels equals 0". -/
def exactlyOneZero (c : ℤ × ℤ × ℤ) : Prop :=
  (c.1 = 0 ∧ c.2.1 ≠ 0 ∧ c.2.2 ≠ 0) ∨
    (c.1 ≠ 0 ∧ c.2.1 = 0 ∧ c.2.2 ≠ 0) ∨
    (c.1 ≠ 0 ∧ c.2.1 ≠ 0 ∧ c.2.2 = 0)

instance (c : ℤ × ℤ × ℤ) : Decidable (exactlyOneZero c) := by
  rw [exactlyOneZero]; infer_instance

/-- C conversion of an `int` value to `unsigned short` (wraparound modulo
2^16), as happens on `x += dx` with `unsigned short x` and `int dx`. -/
def ushortOfInt (n : ℤ) : ℕ := (n % 65536).toNat

/-- One axis of the bounce update (src/submission/hello.c lines 161-172):
`x += dx; if (x >= (bound-radius) || x <= radius) { dx = -dx; x += dx; }`.
The position is an `unsigned short`; the comparisons and additions happen
in `int` after integer promotion. Returns the new position and velocity. -/
def bounceAxis (x : ℕ) (d : ℤ) (bound radius : ℤ) : ℕ × ℤ :=
  let x1 := ushortOfInt ((x : ℤ) + d)
  if (x1 : ℤ) ≥ bound - radius ∨ (x1 : ℤ) ≤ radius then
    (ushortOfInt ((x1 : ℤ) + -d), -d)
  else
    (x1, d)

/-- Hue advance of the animation loop (src/submission/hello.c lines 153-155):
`h += .5; if (h >= 360.0) h = 0.0;`. -/
def hueStep (h : ℚ) : ℚ := if h + 1/2 ≥ 360 then 0 else h + 1/2

/-- Animation state of the pixel-space main loop: hue `h` plus position
`(x, y)` (unsigned short) and velocity `(dx, dy)` (int). Saturation and
value are the constants 1 and 3/10 (line 143). -/
structure AnimState where
  h : ℚ
  x : ℕ
  y : ℕ
  dx : ℤ
  dy : ℤ
deriving DecidableEq

/-- State carried into the loop (src/submission/hello.c lines 143-147):
`h = 0.0`, `x = 20, y = 20`, `dx = 1, dy = 1` (with `radius = 16`). -/
def initState : AnimState := ⟨0, 20, 20, 1, 1⟩

/-- Per-tick state update of the pixel-space animation loop
(src/submission/hello.c lines 152-172): advance the hue, bounce both axes
within the 640×480 frame with radius 16. -/
def animAdvance (st : AnimState) : AnimState :=
  let xr := bounceAxis st.x st.dx 640 16
  let yr := bounceAxis st.y st.dy 480 16
  ⟨hueStep st.h, xr.1, yr.1, xr.2, yr.2⟩

/-- Output mapping of the pixel-space variant (src/submission/hello.c lines
174-176): the position channel sent to the device is
`(unsigned short)(x) << 6` stored into a 16-bit field. -/
def outPos (x : ℕ) : ℕ := (x <<< 6) % 65536

/-- Loop invariant for the pixel-space motion: both coordinates strictly
inside the reflective band and unit velocities. -/
def MotionInv (st : AnimState) : Prop :=
  16 < st.x ∧ st.x < 624 ∧ 16 < st.y ∧ st.y < 464 ∧
    (st.dx = 1 ∨ st.dx = -1) ∧ (st.dy = 1 ∨ st.dy = -1)

instance (st : AnimState) : Decidable (MotionInv st) := by
  rw [MotionInv]; infer_instance

/-- Modelled from the spec (§6): the four ioctl request codes declared in
vga_ball.h (not under src/), two resources × two directions. -/
inductive Req where
  | readBackground
  | writeBackground
  | readPosition
  | writePosition
deriving DecidableEq

/-- Observable behaviour of one device-channel operation: the list of ioctl
requests it issues, whether it printed a diagnostic with `perror`, and
whether it reached its trailing `printf`. -/
structure CallLog where
  requests : List Req
  diagnostic : Bool
  printed : Bool
deriving DecidableEq

/-- `set_background_color` (src/submission/hello.c lines 35-44): builds the
arg struct, issues exactly one WRITE_BACKGROUND ioctl; a nonzero result
triggers `perror` and an early `return` — no retry, no second request.
The ioctl outcome is an oracle parameter `fails`. -/
def set_background_color (fails : Bool) : CallLog :=
  ⟨[Req.writeBackground], fails, false⟩

/-- `print_background_color` (src/submission/hello.c lines 21-32): one
READ_BACKGROUND ioctl; on failure `perror` and return, otherwise print. -/
def print_background_color (fails : Bool) : CallLog :=
  ⟨[Req.readBackground], fails, !fails⟩

/-- `set_position` (src/submission/hello.c lines 58-67): one WRITE_POSITION
ioctl; on failure `perror` and return. -/
def set_position (fails : Bool) : CallLog :=
  ⟨[Req.writePosition], fails, false⟩

/-- `print_position` (src/submission/hello.c lines 46-56): one READ_POSITION
ioctl; on failure `perror` and return, otherwise print. -/
def print_position (fails : Bool) : CallLog :=
  ⟨[Req.readPosition], fails, !fails⟩

/-- One full iteration of the pixel-space animation loop (lines 149-181):
the state update `animAdvance` together with the device calls of the tick,
each fed its own ioctl outcome. The C call sites discard the results of the
void functions, so the state component never depends on the oracles. -/
def loopTick (st : AnimState) (fBg fPos fRead : Bool) :
    AnimState × List CallLog :=
  (animAdvance st,
   [set_background_color fBg, set_position fPos, print_position fRead])

/-- One axis of the bounce update in the normalized variant
(src/sw/hello.c lines 160-171): `x += dx; if (x >= 1.0 || x <= 0.0)
{ dx = -dx; x += dx; }` on floats, modelled exactly on ℚ. -/
def bounceNorm (x d : ℚ) : ℚ × ℚ :=
  let x1 := x + d
  if 1 ≤ x1 ∨ x1 ≤ 0 then (x1 + -d, -d) else (x1, d)

/-- Axis update lifted to a possibly-indeterminate position: a read of an
uninitialized float (undefined behaviour) is modelled as `none`, and any
computation that consumes an indeterminate value stays indeterminate. -/
def stepOpt : Option ℚ → ℚ → Option ℚ × ℚ
  | some xv, d => let r := bounceNorm xv d; (some r.1, r.2)
  | none, d => (none, d)

/-- State of the normalized-space loop (src/sw/hello.c): per-axis position
(possibly indeterminate) and velocity. -/
structure SwState where
  x : Option ℚ
  y : Option ℚ
  dx : ℚ
  dy : ℚ
deriving DecidableEq

/-- Declarations at src/sw/hello.c lines 145-146: `float x = 0.2, y;`
(`y` is declared but never initialized) and `float dx = 0.01, dy = 0.01;`. -/
def swInit : SwState := ⟨some (1/5), none, 1/100, 1/100⟩

/-- Per-tick motion update of the normalized-space loop
(src/sw/hello.c lines 160-171). -/
def swStep (st : SwState) : SwState :=
  let xr := stepOpt st.x st.dx
  let yr := stepOpt st.y st.dy
  ⟨xr.1, yr.1, xr.2, yr.2⟩

/-- Output mapping for x in the normalized variant (src/sw/hello.c line 174):
`(unsigned short)(x * 170)`, a float-to-integer conversion truncating toward
zero (defined whenever the value fits the 16-bit range, as it does on [0,1]). -/
def scaleNormX (x : ℚ) : ℕ := (truncInt (x * 170)).toNat

/-- Output mapping for y in the normalized variant (src/sw/hello.c line 175):
`(unsigned short)(y * 120)`. -/
def scaleNormY (y : ℚ) : ℕ := (truncInt (y * 120)).toNat

/-- The x channel written to the device by the normalized variant;
indeterminate when the position it derives from is indeterminate. -/
def swOutX (st : SwState) : Option ℕ := st.x.map scaleNormX

/-- The y channel written to the device by the normalized variant. -/
def swOutY (st : SwState) : Option ℕ := st.y.map scaleNormY

lemma subDown_of_lt (h : ℚ) (hl : h < 360) : subDown h = h := by
  rw [subDown.eq_def, dif_neg (not_le.mpr hl)]

lemma subDown_of_ge (h : ℚ) (hg : 360 ≤ h) : subDown h = subDown (h - 360) := by
  rw [subDown.eq_def, dif_pos hg]

lemma addUp_of_nonneg (h : ℚ) (h0 : 0 ≤ h) : addUp h = h := by
  rw [addUp.eq_def, dif_neg (not_lt.mpr h0)]

lemma addUp_of_neg (h : ℚ) (hn : h < 0) : addUp h = addUp (h + 360) := by
  rw [addUp.eq_def, dif_pos hn]

lemma subDown_lt (h : ℚ) : subDown h < 360 := by
  induction h using subDown.induct with
  | case1 h hge ih => rw [subDown_of_ge h hge]; exact ih
  | case2 h hlt => rw [subDown_of_lt h (lt_of_not_le hlt)]; exact lt_of_not_le hlt

lemma subDown_nonneg (h : ℚ) : 0 ≤ h → 0 ≤ subDown h := by
  induction h using subDown.induct with
  | case1 h hge ih =>
      intro _
      rw [subDown_of_ge h hge]
      exact ih (by linarith)
  | case2 h hlt =>
      intro h0
      rw [subDown_of_lt h (lt_of_not_le hlt)]
      exact h0

lemma addUp_nonneg (h : ℚ) : 0 ≤ addUp h := by
  induction h using addUp.induct with
  | case1 h hlt ih => rw [addUp_of_neg h hlt]; exact ih
  | case2 h hge => rw [addUp_of_nonneg h (not_lt.mp hge)]; exact not_lt.mp hge

lemma addUp_lt (h : ℚ) : h < 360 → addUp h < 360 := by
  induction h using addUp.induct with
  | case1 h hlt ih =>
      intro _
      rw [addUp_of_neg h hlt]
      exact ih (by linarith)
  | case2 h hge =>
      intro hl
      rw [addUp_of_nonneg h (not_lt.mp hge)]
      exact hl

lemma normalizeHue_nonneg (h : ℚ) : 0 ≤ normalizeHue h := addUp_nonneg _

lemma normalizeHue_lt (h : ℚ) : normalizeHue h < 360 :=
  addUp_lt _ (subDown_lt h)

lemma normalizeHue_of_mem (h : ℚ) (h0 : 0 ≤ h) (h1 : h < 360) :
    normalizeHue h = h := by
  rw [normalizeHue, subDown_of_lt h h1, addUp_of_nonneg h h0]

lemma normalizeHue_add_360 (h : ℚ) : normalizeHue (h + 360) = normalizeHue h := by
  rcases le_or_lt 0 h with h0 | h0
  · rw [normalizeHue, normalizeHue, subDown_of_ge (h + 360) (by linarith)]
    norm_num
  · rw [normalizeHue, normalizeHue, subDown_of_lt (h + 360) (by linarith),
        subDown_of_lt h (by linarith), addUp_of_neg h h0]

lemma hsv_to_rgb_of_mem (h s v : ℚ) (h0 : 0 ≤ h) (h1 : h < 360) :
    hsv_to_rgb h s v = hsvCore h s v := by
  rw [hsv_to_rgb, normalizeHue_of_mem h h0 h1]

lemma outPos_eq (x : ℕ) (hx : x ≤ 1023) : outPos x = 64 * x := by
  rw [outPos, Nat.shiftLeft_eq, Nat.mod_eq_of_lt (by omega)]
  ring

lemma truncInt_toNat_mono (a b c : ℚ) (ha : 0 ≤ a) (hab : a ≤ b) (hc : 0 ≤ c) :
    (truncInt (a * c)).toNat ≤ (truncInt (b * c)).toNat := by
  have hac : 0 ≤ a * c := mul_nonneg ha hc
  have hbc : 0 ≤ b * c := mul_nonneg (le_trans ha hab) hc
  rw [truncInt, truncInt, if_pos hac, if_pos hbc]
  exact Int.toNat_le_toNat
    (Int.floor_le_floor (mul_le_mul_of_nonneg_right hab hc))

lemma motionInv_step (st : AnimState) (hInv : MotionInv st) :
    MotionInv (animAdvance st) := by
  obtain ⟨hx1, hx2, hy1, hy2, hdx, hdy⟩ := hInv
  have hxa : 16 < (bounceAxis st.x st.dx 640 16).1 ∧
      (bounceAxis st.x st.dx 640 16).1 < 624 ∧
      ((bounceAxis st.x st.dx 640 16).2 = 1 ∨
        (bounceAxis st.x st.dx 640 16).2 = -1) := by
    simp only [bounceAxis, ushortOfInt]
    rcases hdx with hd | hd <;> rw [hd] <;> split <;> dsimp only <;> omega
  have hya : 16 < (bounceAxis st.y st.dy 480 16).1 ∧
      (bounceAxis st.y st.dy 480 16).1 < 464 ∧
      ((bounceAxis st.y st.dy 480 16).2 = 1 ∨
        (bounceAxis st.y st.dy 480 16).2 = -1) := by
    simp only [bounceAxis, ushortOfInt]
    rcases hdy with hd | hd <;> rw [hd] <;> split <;> dsimp only <;> omega
  exact ⟨hxa.1, hxa.2.1, hya.1, hya.2.1, hxa.2.2, hya.2.2⟩

lemma motionInv_init : MotionInv initState := by
  rw [MotionInv, initState]
  norm_num

/-- C1: with hue = 0, saturation = 1, value = 3/10 the conversion lands in
sector 0 and yields exactly (r, g, b) = (76, 0, 0): the red channel is the
value scaled by 255 and truncated toward zero, green and blue are 0. -/
theorem hsv_hue0_sat1_val03 : hsv_to_rgb 0 1 (3/10) = (76, 0, 0) := by
  rw [hsv_to_rgb_of_mem 0 1 (3/10) (by norm_num) (by norm_num)]
  simp only [hsvCore, truncInt]
  norm_num

/-- C5: with saturation = 0, for every hue and value the conversion returns
three equal channels, each the truncation of value · 255; the intermediates
p, q, t all collapse to v, so the result is independent of the hue and of
the sector selected. -/
theorem hsv_sat0_grayscale (h v : ℚ) :
    hsv_to_rgb h 0 v =
      (truncInt (v * 255), truncInt (v * 255), truncInt (v * 255)) := by
  rw [hsv_to_rgb]
  simp only [hsvCore]
  norm_num

/-- C6: the conversion is periodic in hue with period 360: for every ε and
fixed saturation and value, hue 360 + ε converts like ε, and hue −ε converts
like 360 − ε. -/
theorem hsv_hue_periodic (ε s v : ℚ) :
    hsv_to_rgb (360 + ε) s v = hsv_to_rgb ε s v ∧
      hsv_to_rgb (-ε) s v = hsv_to_rgb (360 - ε) s v := by
  constructor
  · rw [hsv_to_rgb, hsv_to_rgb, show (360 : ℚ) + ε = ε + 360 by ring,
        normalizeHue_add_360]
  · rw [hsv_to_rgb, hsv_to_rgb, show (360 : ℚ) - ε = -ε + 360 by ring,
        normalizeHue_add_360]

/-- C7: the hue-normalization step is a total function (the two while loops
terminate on every rational input, witnessed by the accepted termination
measures of `subDown` and `addUp`) and its result always lies in [0, 360). -/
theorem normalizeHue_total_range (h : ℚ) :
    0 ≤ normalizeHue h ∧ normalizeHue h < 360 :=
  ⟨normalizeHue_nonneg h, normalizeHue_lt h⟩

/-- C2: in the pixel-space motion, whenever the position after adding the
velocity lands within `radius` of either bound of a 640-wide axis, the
velocity is negated and applied once more within the same tick; since the
negated step exactly undoes the contact step, the post-bounce position is
the pre-tick position, strictly past the boundary value (in particular,
contact at `x1 = radius` with `d = -1` yields `radius + 1`, above the
boundary rather than below it). Hypotheses keep the `int` arithmetic inside
the unsigned-short range, as in every reachable state of the program. -/
theorem bounce_reflects (x : ℕ) (d radius : ℤ)
    (h0 : 0 ≤ (x : ℤ) + d) (h1 : (x : ℤ) + d < 65536)
    (hin1 : radius < (x : ℤ)) (hin2 : (x : ℤ) < 640 - radius)
    (hc : (x : ℤ) + d ≤ radius ∨ 640 - radius ≤ (x : ℤ) + d) :
    bounceAxis x d 640 radius = (x, -d) ∧
      radius < ((bounceAxis x d 640 radius).1 : ℤ) ∧
      ((bounceAxis x d 640 radius).1 : ℤ) < 640 - radius := by
  have hfin : bounceAxis x d 640 radius = (x, -d) := by
    simp only [bounceAxis, ushortOfInt]
    split
    · simp only [Prod.mk.injEq]
      exact ⟨by omega, trivial⟩
    · exfalso
      omega
  refine ⟨hfin, ?_, ?_⟩ <;> rw [hfin]
  · exact hin1
  · exact hin2

theorem bounce_reflects_witness :
    bounceAxis 17 (-1) 640 16 = (17, 1) ∧
      16 < (bounceAxis 17 (-1) 640 16).1 ∧
      (bounceAxis 17 (-1) 640 16).1 < 624 := by
  have h := bounce_reflects 17 (-1) 16 (by norm_num) (by norm_num)
    (by norm_num) (by norm_num) (Or.inl (by norm_num))
  refine ⟨by simpa using h.1, by exact_mod_cast h.2.1, ?_⟩
  have h3 := h.2.2
  omega

/-- C3: in the normalized-space variant (src/sw/hello.c), `y` is declared
but never initialized before the loop first evaluates `y += dy`, so every
`y` value subsequently written to the device derives from an indeterminate
initial value, while `x` alone starts from the defined value 0.2. -/
theorem sw_y_uninitialized :
    swInit.x = some (1/5) ∧ swInit.y = none ∧
      (∀ n : ℕ, (swStep^[n] swInit).y = none ∧
        swOutY (swStep^[n] swInit) = none) ∧
      (∀ n : ℕ, ∃ v : ℚ, (swStep^[n] swInit).x = some v) := by
  have hy : ∀ m : ℕ, (swStep^[m] swInit).y = none := by
    intro m
    induction m with
    | zero => rfl
    | succ m ih =>
        rw [Function.iterate_succ_apply']
        simp [swStep, ih, stepOpt]
  refine ⟨rfl, rfl, fun n => ⟨hy n, ?_⟩, ?_⟩
  · rw [swOutY, hy n]
    rfl
  · intro n
    induction n with
    | zero => exact ⟨1/5, rfl⟩
    | succ n ih =>
        obtain ⟨v, hv⟩ := ih
        rw [Function.iterate_succ_apply']
        exact ⟨(bounceNorm v ((swStep^[n] swInit).dx)).1,
          by simp [swStep, hv, stepOpt]⟩

/-- C4: each device operation issues exactly one ioctl request; on failure
it logs a diagnostic and returns without retrying, and the animation-state
component of a loop tick is independent of the ioctl outcomes. -/
theorem device_failure_fire_and_forget :
    (∀ fails : Bool, fails = true →
        ((set_background_color fails).requests.length = 1 ∧
            (set_background_color fails).diagnostic = true) ∧
          ((set_position fails).requests.length = 1 ∧
            (set_position fails).diagnostic = true) ∧
          ((print_background_color fails).requests.length = 1 ∧
            (print_background_color fails).diagnostic = true) ∧
          ((print_position fails).requests.length = 1 ∧
            (print_position fails).diagnostic = true)) ∧
      (∀ (st : AnimState) (fBg fPos fRead fBg' fPos' fRead' : Bool),
        (loopTick st fBg fPos fRead).1 = (loopTick st fBg' fPos' fRead').1) := by
  constructor
  · intro fails hf
    subst hf
    exact ⟨⟨rfl, rfl⟩, ⟨rfl, rfl⟩, ⟨rfl, rfl⟩, ⟨rfl, rfl⟩⟩
  · intro st _ _ _ _ _ _
    rfl

theorem device_failure_fire_and_forget_witness :
    (((set_background_color true).requests.length = 1 ∧
        (set_background_color true).diagnostic = true) ∧
      ((set_position true).requests.length = 1 ∧
        (set_position true).diagnostic = true) ∧
      ((print_background_color true).requests.length = 1 ∧
        (print_background_color true).diagnostic = true) ∧
      ((print_position true).requests.length = 1 ∧
        (print_position true).diagnostic = true)) ∧
      (loopTick initState true true true).1 =
        (loopTick initState false false false).1 :=
  ⟨device_failure_fire_and_forget.1 true rfl,
    device_failure_fire_and_forget.2 initState true true true false false false⟩

/-- C8: each output-position map is a deterministic (it is a function) and
monotonic map of the internal position for its fixed scale factor: the
pixel-space output is the position left-shifted by 6 (×64) wherever the
shift does not overflow 16 bits, and the normalized-space outputs
(truncations of ×170 and ×120) are monotone on nonnegative positions. -/
theorem output_scaling_monotone :
    (∀ x : ℕ, x ≤ 1023 → outPos x = 64 * x) ∧
      (∀ x₁ x₂ : ℕ, x₁ ≤ x₂ → x₂ ≤ 1023 → outPos x₁ ≤ outPos x₂) ∧
      (∀ a b : ℚ, 0 ≤ a → a ≤ b →
        scaleNormX a ≤ scaleNormX b ∧ scaleNormY a ≤ scaleNormY b) := by
  refine ⟨fun x hx => outPos_eq x hx, ?_, ?_⟩
  · intro x₁ x₂ h12 h2
    rw [outPos_eq x₁ (le_trans h12 h2), outPos_eq x₂ h2]
    omega
  · intro a b ha hab
    exact ⟨truncInt_toNat_mono a b 170 ha hab (by norm_num),
      truncInt_toNat_mono a b 120 ha hab (by norm_num)⟩

theorem output_scaling_monotone_witness :
    outPos 20 = 64 * 20 ∧ outPos 20 ≤ outPos 623 ∧
      (scaleNormX (1/5) ≤ scaleNormX (3/5) ∧
        scaleNormY (1/5) ≤ scaleNormY (3/5)) :=
  ⟨output_scaling_monotone.1 20 (by norm_num),
    output_scaling_monotone.2.1 20 623 (by norm_num) (by norm_num),
    output_scaling_monotone.2.2 (1/5) (3/5) (by norm_num) (by norm_num)⟩

/-- C9 counterexample: at hue 0 (in [0,360)) with saturation 1 and value 1
the conversion yields (255, 0, 0) — two channels at 0, not exactly one. -/
theorem hsv_two_zero_channels_at_hue0 :
    (0 : ℚ) ≤ 0 ∧ (0 : ℚ) < 360 ∧ hsv_to_rgb 0 1 1 = (255, 0, 0) ∧
      ¬ exactlyOneZero (hsv_to_rgb 0 1 1) := by
  have he : hsv_to_rgb 0 1 1 = (255, 0, 0) := by
    rw [hsv_to_rgb_of_mem 0 1 1 (by norm_num) (by norm_num)]
    simp only [hsvCore, truncInt]
    norm_num
  refine ⟨le_refl 0, by norm_num, he, ?_⟩
  rw [he]
  simp [exactlyOneZero]

/-- C9 (amended): for every hue in [0,360) with saturation 1 and value 1, at
least one RGB channel is 0 (the intermediate p vanishes and lands in some
channel of every sector); across the 60° sector boundary the adjacent hues
59.9° and 60.0° differ by at most 1 unit in each channel; and a hue exactly
at a 60° boundary selects the sector whose lower bound equals it. -/
theorem hsv_sat1_val1_zero_channel :
    (∀ h : ℚ, 0 ≤ h → h < 360 →
        ((hsv_to_rgb h 1 1).1 = 0 ∨ (hsv_to_rgb h 1 1).2.1 = 0 ∨
          (hsv_to_rgb h 1 1).2.2 = 0)) ∧
      (|(hsv_to_rgb (599/10) 1 1).1 - (hsv_to_rgb 60 1 1).1| ≤ 1 ∧
        |(hsv_to_rgb (599/10) 1 1).2.1 - (hsv_to_rgb 60 1 1).2.1| ≤ 1 ∧
        |(hsv_to_rgb (599/10) 1 1).2.2 - (hsv_to_rgb 60 1 1).2.2| ≤ 1) ∧
      (∀ k : ℕ, k < 6 → hsvSector (60 * (k : ℚ)) = (k : ℤ)) := by
  refine ⟨?_, ?_, ?_⟩
  · intro h h0 h1
    rw [hsv_to_rgb_of_mem h 1 1 h0 h1]
    simp only [hsvCore]
    split_ifs <;> norm_num [truncInt]
  · have e1 : hsv_to_rgb (599/10) 1 1 = (255, 254, 0) := by
      rw [hsv_to_rgb_of_mem (599/10) 1 1 (by norm_num) (by norm_num)]
      simp only [hsvCore, truncInt]
      norm_num
    have e2 : hsv_to_rgb 60 1 1 = (255, 255, 0) := by
      rw [hsv_to_rgb_of_mem 60 1 1 (by norm_num) (by norm_num)]
      simp only [hsvCore, truncInt]
      norm_num
    rw [e1, e2]
    norm_num
  · intro k hk
    have hk6 : (k : ℚ) < 6 := by exact_mod_cast hk
    rw [hsvSector, normalizeHue_of_mem _ (by positivity) (by linarith),
        show (60 * (k : ℚ)) / 60 = (k : ℚ) by ring]
    simp [truncInt]

theorem hsv_sat1_val1_zero_channel_witness :
    ((hsv_to_rgb 30 1 1).1 = 0 ∨ (hsv_to_rgb 30 1 1).2.1 = 0 ∨
        (hsv_to_rgb 30 1 1).2.2 = 0) ∧
      hsvSector (60 * ((5 : ℕ) : ℚ)) = ((5 : ℕ) : ℤ) :=
  ⟨hsv_sat1_val1_zero_channel.1 30 (by norm_num) (by norm_num),
    hsv_sat1_val1_zero_channel.2.2 5 (by norm_num)⟩

/-- C10: starting from x = 20, y = 20 with unit velocities and radius 16,
every iteration of the pixel-space loop preserves the invariant
16 < x < 624 and 16 < y < 464 (so the unsigned coordinates never wrap below
zero), and the shifted outputs never exceed 639·64 and 479·64. -/
theorem motion_loop_invariant :
    (∀ n : ℕ, MotionInv (animAdvance^[n] initState)) ∧
      (∀ st : AnimState, MotionInv st →
        MotionInv (animAdvance st) ∧
          outPos (animAdvance st).x ≤ 639 * 64 ∧
          outPos (animAdvance st).y ≤ 479 * 64) := by
  constructor
  · intro n
    induction n with
    | zero => exact motionInv_init
    | succ n ih =>
        rw [Function.iterate_succ_apply']
        exact motionInv_step _ ih
  · intro st hInv
    have h2 := motionInv_step st hInv
    refine ⟨h2, ?_, ?_⟩
    · obtain ⟨hx1, hx2, -, -, -, -⟩ := h2
      rw [outPos_eq _ (by omega)]
      omega
    · obtain ⟨-, -, hy1, hy2, -, -⟩ := h2
      rw [outPos_eq _ (by omega)]
      omega

theorem motion_loop_invariant_witness :
    MotionInv (animAdvance initState) ∧
      outPos (animAdvance initState).x ≤ 639 * 64 ∧
      outPos (animAdvance initState).y ≤ 479 * 64 :=
  motion_loop_invariant.2 initState (by rw [MotionInv, initState]; norm_num)
